import Mathlib

/-!
Verification of the alice_chatbot job-orchestration core.

This file gives a shallow embedding, in Lean 4, of the retry policy,
result channel, dead-letter queue, chunking, token-budget assembly,
PII masking and latency-statistics code of the repository, and proves
(or refutes) the specified properties about those definitions.

Conventions:
* Python strings are embedded as Lean `String` or `List Char`.
* Python machine floats used by the backoff computation are embedded as
  exact rationals; the code only multiplies small powers of two by 1.0,
  caps at 120.0 and adds a uniform jitter, all of which are exact.
* Stateful code (Redis, MongoDB) is embedded as explicit state passing.
-/

/-! ## Retry policy (`orchestrator/app/config.py`, `retry_handler.py`) -/

/-- `settings.MAX_RETRY_COUNT` (config.py, default 5). -/
def MAX_RETRY_COUNT : Nat := 5

/-- `settings.RETRY_BACKOFF_BASE` (config.py, default 1.0 s). -/
def RETRY_BACKOFF_BASE : ℚ := 1

/-- `settings.RETRY_BACKOFF_MULTIPLIER` (config.py, default 2.0). -/
def RETRY_BACKOFF_MULTIPLIER : ℚ := 2

/-- `settings.RETRY_BACKOFF_MAX` (config.py, default 120.0 s). -/
def RETRY_BACKOFF_MAX : ℚ := 120

/-- `settings.RETRY_JITTER_MAX` (config.py, default 2.0 s). -/
def RETRY_JITTER_MAX : ℚ := 2

/-- `RETRYABLE_ERRORS` (config.py): substrings marking transient errors. -/
def RETRYABLE_ERRORS : List String :=
  ["timeout", "rate_limit", "connection", "network", "503", "504",
   "429", "temporary", "unavailable", "overloaded"]

/-- Python `str.lower()` (ASCII-relevant part, via `Char.toLower`). -/
def lowerStr (s : String) : String := String.mk (s.data.map Char.toLower)

/-- Python `pat in s` (substring containment). -/
def containsSubstr (s pat : String) : Bool := decide (pat.data <:+: s.data)

/-- `is_retryable_error(error)` (config.py): the lower-cased message
contains one of the `RETRYABLE_ERRORS` substrings. -/
def is_retryable_error (e : String) : Bool :=
  RETRYABLE_ERRORS.any (fun pat => containsSubstr (lowerStr e) pat)

/-- `should_retry(error, retry_count)` (retry_handler.py). -/
def should_retry (e : String) (retry_count : Nat) : Bool :=
  if MAX_RETRY_COUNT ≤ retry_count then false else is_retryable_error e

/-- The deterministic portion of `calculate_backoff_delay` (retry_handler.py):
`min(base * multiplier ** retry_count, max)`. -/
def backoffPure (retry_count : Nat) : ℚ :=
  min (RETRY_BACKOFF_BASE * RETRY_BACKOFF_MULTIPLIER ^ retry_count) RETRY_BACKOFF_MAX

/-- `calculate_backoff_delay(retry_count)` (retry_handler.py), with the
sampled jitter `random.uniform(0, RETRY_JITTER_MAX)` made an explicit
argument. -/
def calculate_backoff_delay (retry_count : Nat) (jitter : ℚ) : ℚ :=
  backoffPure retry_count + jitter

/-- C3: `should_retry(e, n)` returns true iff the lower-cased form of `e`
contains one of the retryable substrings and `n < max_retries` (5);
otherwise it returns false. -/
theorem should_retry_iff_retryable_and_below_max (e : String) (n : Nat) :
    should_retry e n = true ↔
      ((∃ pat ∈ RETRYABLE_ERRORS, pat.data <:+: (lowerStr e).data) ∧ n < 5) := by
  rcases Nat.lt_or_ge n MAX_RETRY_COUNT with h | h
  · have h' : ¬ MAX_RETRY_COUNT ≤ n := Nat.not_le.mpr h
    simp only [should_retry, if_neg h', is_retryable_error, List.any_eq_true,
      containsSubstr, decide_eq_true_eq]
    exact ⟨fun hx => ⟨hx, h⟩, fun hx => hx.1⟩
  · have h' : MAX_RETRY_COUNT ≤ n := h
    simp only [should_retry, if_pos h']
    constructor
    · intro hx; exact absurd hx (by simp)
    · intro hx; exact absurd hx.2 (Nat.not_lt.mpr h')

/-- Witness for C3 at a concrete retryable input. -/
theorem should_retry_iff_retryable_and_below_max_witness :
    should_retry "Connection timeout" 0 = true :=
  (should_retry_iff_retryable_and_below_max "Connection timeout" 0).mpr
    ⟨⟨"timeout", by decide⟩, by decide⟩

/-- C4: the pure backoff portion `min(base * mult ^ n, cap)` is monotone
non-decreasing in `n` and bounded by `cap`; the delay with jitter
`j ∈ [0, jitter_max]` lies in `[backoffPure n, backoffPure n + jitter_max]`;
and at `n = 0` the pure portion equals `base`. -/
theorem backoff_monotone_capped_jittered :
    (∀ m n : Nat, m ≤ n → backoffPure m ≤ backoffPure n) ∧
    (∀ n : Nat, backoffPure n ≤ RETRY_BACKOFF_MAX) ∧
    (∀ (n : Nat) (j : ℚ), 0 ≤ j → j ≤ RETRY_JITTER_MAX →
      backoffPure n ≤ calculate_backoff_delay n j ∧
      calculate_backoff_delay n j ≤ backoffPure n + RETRY_JITTER_MAX) ∧
    backoffPure 0 = RETRY_BACKOFF_BASE := by
  refine ⟨?_, ?_, ?_, ?_⟩
  · intro m n hmn
    have hpow : (RETRY_BACKOFF_MULTIPLIER : ℚ) ^ m ≤ RETRY_BACKOFF_MULTIPLIER ^ n := by
      apply pow_le_pow_right₀ _ hmn
      norm_num [RETRY_BACKOFF_MULTIPLIER]
    have : RETRY_BACKOFF_BASE * RETRY_BACKOFF_MULTIPLIER ^ m ≤
        RETRY_BACKOFF_BASE * RETRY_BACKOFF_MULTIPLIER ^ n := by
      apply mul_le_mul_of_nonneg_left hpow
      norm_num [RETRY_BACKOFF_BASE]
    exact min_le_min this le_rfl
  · intro n
    exact min_le_right _ _
  · intro n j hj0 hjmax
    constructor
    · exact le_add_of_nonneg_right hj0
    · exact add_le_add_left hjmax _
  · simp [backoffPure, RETRY_BACKOFF_BASE, RETRY_BACKOFF_MULTIPLIER, RETRY_BACKOFF_MAX]

/-- Witness for C4 at concrete inputs. -/
theorem backoff_monotone_capped_jittered_witness :
    backoffPure 2 ≤ backoffPure 7 ∧ calculate_backoff_delay 3 1 ≤ backoffPure 3 + RETRY_JITTER_MAX :=
  ⟨backoff_monotone_capped_jittered.1 2 7 (by norm_num),
   (backoff_monotone_capped_jittered.2.2.1 3 1 (by norm_num) (by norm_num [RETRY_JITTER_MAX])).2⟩

/-! ## Result channel (`orchestrator/app/services/redis_client.py`) -/

/-- A progress/result document stored under `result:<request_id>`.
Optional fields stand for JSON keys that a given writer may omit. -/
structure RRecord where
  status : String
  finished : Nat := 0
  type : Option String := none
  reply : Option String := none
  error : Option String := none
  retry_count : Option Nat := none
  max_retry : Option Nat := none
deriving DecidableEq, Repr

/-- The result channel: the Redis keyspace restricted to `result:*` keys.
TTL is not modelled; all claims are scoped to "until TTL expiry". -/
def RChan := String → Option RRecord

/-- The empty channel (no keys). -/
def emptyChan : RChan := fun _ => none

/-- `stream_update(request_id, reply, finished)` (redis_client.py):
unconditional `SETEX` of a streaming/completed document. -/
def stream_update (c : RChan) (request_id reply : String) (finished : Nat) : RChan :=
  fun k =>
    if k = request_id then
      some { status := if finished = 0 then "streaming" else "completed",
             type := some "chat", reply := some reply, finished := finished }
    else c k

/-- `set_result(request_id, result)` (redis_client.py): forces
`result["finished"] = 1` and unconditionally `SETEX`es the document. -/
def set_result (c : RChan) (request_id : String) (result : RRecord) : RChan :=
  fun k => if k = request_id then some { result with finished := 1 } else c k

/-- `set_error(request_id, error)` (redis_client.py). -/
def set_error (c : RChan) (request_id error : String) : RChan :=
  fun k =>
    if k = request_id then
      some { status := "error", error := some error, finished := 1 }
    else c k

/-- `get_result(request_id)` (redis_client.py). -/
def get_result (c : RChan) (request_id : String) : Option RRecord := c request_id

/-- A result-channel write operation (the three writers above). -/
inductive ROp where
  | writeProgress (request_id reply : String) (finished : Nat)
  | writeResult (request_id : String) (doc : RRecord)
  | writeError (request_id msg : String)
deriving DecidableEq, Repr

/-- Apply one write operation to the channel. -/
def applyOp (c : RChan) : ROp → RChan
  | .writeProgress i r f => stream_update c i r f
  | .writeResult i d => set_result c i d
  | .writeError i m => set_error c i m

/-- Run a sequence of write operations. -/
def runOps (c : RChan) (ops : List ROp) : RChan := ops.foldl applyOp c

/-- The key an operation writes. -/
def opId : ROp → String
  | .writeProgress i _ _ => i
  | .writeResult i _ => i
  | .writeError i _ => i

/-- The `finished` value an operation stores (`set_result` and `set_error`
always store 1). -/
def opFinished : ROp → Nat
  | .writeProgress _ _ f => f
  | .writeResult _ _ => 1
  | .writeError _ _ => 1

/-- An operation writing `finished = 1` to the given id. -/
def terminalWrite (i : String) (op : ROp) : Prop := opId op = i ∧ opFinished op = 1

/-- Any write stores a record whose `finished` field is `opFinished`. -/
theorem applyOp_writes (c : RChan) (op : ROp) :
    ∃ r, applyOp c op (opId op) = some r ∧ r.finished = opFinished op := by
  cases op with
  | writeProgress i rep f =>
      exact ⟨{ status := if f = 0 then "streaming" else "completed",
               type := some "chat", reply := some rep, finished := f },
        by simp [applyOp, stream_update, opId], rfl⟩
  | writeResult i d =>
      exact ⟨{ d with finished := 1 }, by simp [applyOp, set_result, opId], rfl⟩
  | writeError i m =>
      exact ⟨{ status := "error", error := some m, finished := 1 },
        by simp [applyOp, set_error, opId], rfl⟩

/-- A write to a different key leaves a key unchanged. -/
theorem applyOp_other (c : RChan) (op : ROp) (k : String) (h : opId op ≠ k) :
    applyOp c op k = c k := by
  cases op with
  | writeProgress i rep f =>
      simp only [opId] at h
      simp only [applyOp, stream_update]
      rw [if_neg (fun hk => h hk.symm)]
  | writeResult i d =>
      simp only [opId] at h
      simp only [applyOp, set_result]
      rw [if_neg (fun hk => h hk.symm)]
  | writeError i m =>
      simp only [opId] at h
      simp only [applyOp, set_error]
      rw [if_neg (fun hk => h hk.symm)]

/-- If a key currently holds `finished = 1` and every remaining write to
that key stores `finished = 1`, the key still holds `finished = 1` after
the remaining writes run. -/
theorem runOps_preserves_terminal (i : String) :
    ∀ (ops : List ROp) (c : RChan) (r : RRecord),
      c i = some r → r.finished = 1 →
      (∀ op ∈ ops, opId op = i → opFinished op = 1) →
      ∃ r2, runOps c ops i = some r2 ∧ r2.finished = 1 := by
  intro ops
  induction ops with
  | nil => intro c r hc hr _; exact ⟨r, hc, hr⟩
  | cons op rest ih =>
      intro c r hc hr hall
      by_cases hid : opId op = i
      · obtain ⟨r2, hw, hf⟩ := applyOp_writes c op
        rw [hid] at hw
        exact ih (applyOp c op) r2 hw
          (hf.trans (hall op (List.mem_cons_self op rest) hid))
          (fun o ho => hall o (List.mem_cons_of_mem op ho))
      · exact ih (applyOp c op) r (by rw [applyOp_other c op i hid]; exact hc) hr
          (fun o ho => hall o (List.mem_cons_of_mem op ho))

/-- C2 (counterexample): the writers are unconditional last-writer-wins
`SETEX`es, so a `finished = 0` progress write issued after a terminal
write overwrites it: after `write_error` then `write_progress(…, 0)` the
read returns `finished = 0`, refuting the claim for arbitrary operation
sequences. -/
theorem finished_one_overwritten_by_zero :
    get_result (runOps emptyChan [ROp.writeError "id0" "boom"]) "id0" =
      some { status := "error", error := some "boom", finished := 1 } ∧
    get_result (runOps emptyChan
        [ROp.writeError "id0" "boom", ROp.writeProgress "id0" "partial" 0]) "id0" =
      some { status := "streaming", type := some "chat",
             reply := some "partial", finished := 0 } := by
  constructor <;> decide

/-- C2 (amended): once an operation writes `finished = 1` for an id, every
subsequent read of that id returns `finished = 1` — provided the remaining
operations never store `finished = 0` under that id (the handler-side
write discipline; the channel itself does not enforce it). -/
theorem terminal_write_persists (c : RChan) (i : String) (l₁ l₂ : List ROp) (op : ROp)
    (hterm : terminalWrite i op)
    (hrest : ∀ op2 ∈ l₂, opId op2 = i → opFinished op2 = 1) :
    ∃ r, get_result (runOps c (l₁ ++ op :: l₂)) i = some r ∧ r.finished = 1 := by
  have hsplit : runOps c (l₁ ++ op :: l₂) = runOps (applyOp (runOps c l₁) op) l₂ := by
    simp [runOps, List.foldl_append]
  rw [get_result, hsplit]
  obtain ⟨r, hw, hf⟩ := applyOp_writes (runOps c l₁) op
  rw [hterm.1] at hw
  exact runOps_preserves_terminal i l₂ _ r hw (hf.trans hterm.2) hrest

/-- Witness for C2 (amended) at a concrete operation sequence. -/
theorem terminal_write_persists_witness :
    ∃ r, get_result (runOps emptyChan
        ([ROp.writeProgress "id0" "hi" 0] ++ ROp.writeError "id0" "boom" ::
          [ROp.writeResult "id0" { status := "completed" }])) "id0" =
      some r ∧ r.finished = 1 :=
  terminal_write_persists emptyChan "id0" [ROp.writeProgress "id0" "hi" 0]
    [ROp.writeResult "id0" { status := "completed" }]
    (ROp.writeError "id0" "boom") (by constructor <;> rfl) (by decide)

/-! ## Worker failure branch (`kafka_consumer.py`, `_process_message`) -/

/-- Python slice `s[:n]`. -/
def pyTake (s : String) (n : Nat) : String := String.mk (s.data.take n)

/-- The `_retry` metadata built by `create_retry_payload` (retry_handler.py);
`last_attempt` (a wall-clock timestamp) and `next_delay` (a fresh jitter
sample) are not relevant to the claims and are omitted. -/
structure RetryMeta where
  original_topic : String
  retry_count : Nat
  max_retry : Nat
  last_error : String
deriving DecidableEq, Repr

/-- What the failure branch did besides writing the result channel. -/
inductive FailureOutcome where
  | retry (meta : RetryMeta)
  | deadLetter (request_id original_topic error : String) (retry_count : Nat)
      (error_msg : String)
deriving DecidableEq, Repr

/-- The `except` branch of `_process_message` (kafka_consumer.py): decide
retry-vs-DLQ via the retry policy, publish the retry envelope or save to
the DLQ (reported in the outcome), and write the result channel. -/
def handleFailure (c : RChan) (request_id original_topic error : String)
    (retry_count : Nat) : FailureOutcome × RChan :=
  if should_retry error retry_count then
    (FailureOutcome.retry
      { original_topic := original_topic, retry_count := retry_count + 1,
        max_retry := MAX_RETRY_COUNT, last_error := error },
     set_result c request_id
       { status := "retrying", retry_count := some (retry_count + 1),
         max_retry := some MAX_RETRY_COUNT, error := some (pyTake error 500) })
  else
    let error_msg :=
      if MAX_RETRY_COUNT ≤ retry_count then
        "Max retries (" ++ toString MAX_RETRY_COUNT ++ ") exceeded. " ++ error
      else error
    (FailureOutcome.deadLetter request_id original_topic error retry_count error_msg,
     set_error c request_id error_msg)

/-- C1 (code bug): at the failing input — a retryable error
(`"Connection timeout"`) with `retry_count = 0` — the worker does publish
a retry envelope carrying `retry_count + 1` and does write
`{status: "retrying", retry_count: 1, max_retry: 5, error: error[:500]}`,
but it stores that record through `set_result`, which forces
`finished = 1`: the stored record is terminal, contradicting the claimed
`finished ≠ 1`. -/
theorem retrying_record_is_terminal :
    (handleFailure emptyChan "req1" "chat_requests" "Connection timeout" 0).1 =
      FailureOutcome.retry
        { original_topic := "chat_requests", retry_count := 1,
          max_retry := 5, last_error := "Connection timeout" } ∧
    get_result (handleFailure emptyChan "req1" "chat_requests" "Connection timeout" 0).2
        "req1" =
      some { status := "retrying", retry_count := some 1, max_retry := some 5,
             error := some "Connection timeout", finished := 1 } := by
  constructor <;> decide

/-! ## Dead-letter queue (`orchestrator/app/services/dlq_handler.py`) -/

/-- One `error_history` entry `{error, timestamp}`. -/
structure ErrorEntry where
  error : String
  timestamp : Nat
deriving DecidableEq, Repr

/-- A `dead_letter_queue` document.  `id` stands for the Mongo `_id`
(unique per document); timestamps are abstract ticks. -/
structure DlqRecord where
  id : Nat
  request_id : String
  original_topic : String
  message_data : String
  last_error : String
  retry_count : Nat
  error_history : List ErrorEntry
  first_failed_at : Nat
  last_failed_at : Nat
  status : String
  created_at : Nat
  retried_at : Option Nat := none
  resolved_at : Option Nat := none
deriving DecidableEq, Repr

/-- The `dead_letter_queue` collection, in insertion order. -/
abbrev DlqState := List DlqRecord

/-- Mongo `update_one`: rewrite the first document matching `p`. -/
def updateFirst (p : DlqRecord → Bool) (f : DlqRecord → DlqRecord) :
    DlqState → DlqState
  | [] => []
  | x :: xs => if p x then f x :: xs else x :: updateFirst p f xs

/-- `save_to_dlq(request_id, original_topic, message_data, error, retry_count)`
(dlq_handler.py).  `newId` is the `_id` Mongo would assign on insert and
`now` the current `datetime.utcnow()` tick. -/
def save_to_dlq (s : DlqState) (request_id original_topic message_data error : String)
    (retry_count : Nat) (newId now : Nat) : DlqState :=
  match s.find? (fun r => r.request_id == request_id) with
  | some _ =>
      updateFirst (fun r => r.request_id == request_id)
        (fun r =>
          { r with last_error := error, retry_count := retry_count,
                   last_failed_at := now,
                   error_history := r.error_history ++ [⟨error, now⟩] }) s
  | none =>
      s ++ [{ id := newId, request_id := request_id,
              original_topic := original_topic, message_data := message_data,
              last_error := error, retry_count := retry_count,
              error_history := [⟨error, now⟩],
              first_failed_at := now, last_failed_at := now,
              status := "pending", created_at := now }]

/-- Number of DLQ documents carrying a given correlation id. -/
def countId (s : DlqState) (i : String) : Nat :=
  (s.filter (fun r => r.request_id == i)).length

/-- `updateFirst` with a field update that keeps `request_id` does not
change any correlation-id count. -/
theorem countId_updateFirst (p : DlqRecord → Bool) (f : DlqRecord → DlqRecord)
    (hf : ∀ r, (f r).request_id = r.request_id) :
    ∀ (s : DlqState) (i : String), countId (updateFirst p f s) i = countId s i := by
  intro s
  induction s with
  | nil => intro i; rfl
  | cons x xs ih =>
      intro i
      by_cases hp : p x
      · simp only [updateFirst, if_pos hp, countId, List.filter_cons, hf x]
        by_cases hx : x.request_id == i <;> simp [hx, countId] at ih ⊢
      · simp only [updateFirst, if_neg hp, countId, List.filter_cons]
        by_cases hx : x.request_id == i <;> simp [hx, countId] at ih ⊢ <;> exact ih i

/-- `updateFirst` skips an unmatched run. -/
theorem updateFirst_append (p : DlqRecord → Bool) (f : DlqRecord → DlqRecord)
    (l1 l2 : DlqState) (h : ∀ x ∈ l1, ¬ p x) :
    updateFirst p f (l1 ++ l2) = l1 ++ updateFirst p f l2 := by
  induction l1 with
  | nil => rfl
  | cons x xs ih =>
      have hx : ¬ p x := h x (List.mem_cons_self x xs)
      simp only [List.cons_append, updateFirst, if_neg hx, List.append_eq]
      rw [ih (fun y hy => h y (List.mem_cons_of_mem x hy))]

/-- If no document in `s` carries the id, the id count over `s` is zero. -/
theorem countId_eq_zero (s : DlqState) (i : String) (h : ∀ r ∈ s, ¬ r.request_id = i) :
    countId s i = 0 := by
  simp only [countId, List.length_eq_zero]
  exact List.filter_eq_nil_iff.mpr (fun r hr => by simpa using h r hr)

/-- C7: `save_to_dlq` is idempotent per correlation id: each save keeps
at most one document per id, and two saves from a state without the id
produce exactly one document whose `error_history` lists both errors in
order, with `retry_count` and `last_error` from the second call and
`status`/`first_failed_at`/`created_at` from the first (insert) call. -/
theorem dlq_save_idempotent_and_unique :
    (∀ (s : DlqState) (i topic payload e : String) (rc newId now : Nat),
       (∀ j, countId s j ≤ 1) →
       ∀ j, countId (save_to_dlq s i topic payload e rc newId now) j ≤ 1) ∧
    (∀ (s : DlqState) (i topic payload e1 e2 : String)
       (rc1 rc2 id1 id2 t1 t2 : Nat),
       (∀ r ∈ s, ¬ r.request_id = i) →
       countId (save_to_dlq (save_to_dlq s i topic payload e1 rc1 id1 t1)
           i topic payload e2 rc2 id2 t2) i = 1 ∧
       ∃ r, r ∈ save_to_dlq (save_to_dlq s i topic payload e1 rc1 id1 t1)
             i topic payload e2 rc2 id2 t2 ∧
         r.request_id = i ∧ r.error_history = [⟨e1, t1⟩, ⟨e2, t2⟩] ∧
         r.retry_count = rc2 ∧ r.last_error = e2 ∧ r.status = "pending" ∧
         r.first_failed_at = t1 ∧ r.created_at = t1) := by
  constructor
  · intro s i topic payload e rc newId now hinv j
    unfold save_to_dlq
    cases hfind : s.find? (fun r => r.request_id == i) with
    | some r0 =>
        dsimp only
        rw [countId_updateFirst (fun r => r.request_id == i)
          (fun r =>
            { r with last_error := e, retry_count := rc, last_failed_at := now,
                     error_history := r.error_history ++ [⟨e, now⟩] })
          (fun r => rfl)]
        exact hinv j
    | none =>
        have hzero : ∀ r ∈ s, ¬ r.request_id = i := by
          intro r hr
          have := List.find?_eq_none.mp hfind r hr
          simpa using this
        dsimp only
        simp only [countId, List.filter_append, List.length_append]
        by_cases hji : j = i
        · subst hji
          rw [show (s.filter (fun r => r.request_id == j)).length = 0 from
            countId_eq_zero s j hzero]
          simp
        · have h2 : ¬ (i = j) := fun h => hji h.symm
          simp only [List.filter_cons, List.filter_nil]
          rw [if_neg (by simpa using h2)]
          simpa [countId] using hinv j
  · intro s i topic payload e1 e2 rc1 rc2 id1 id2 t1 t2 hnone
    have hfind1 : s.find? (fun r => r.request_id == i) = none :=
      List.find?_eq_none.mpr (fun r hr => by simpa using hnone r hr)
    set new1 : DlqRecord :=
      { id := id1, request_id := i, original_topic := topic,
        message_data := payload, last_error := e1, retry_count := rc1,
        error_history := [⟨e1, t1⟩], first_failed_at := t1,
        last_failed_at := t1, status := "pending", created_at := t1 } with hnew1
    have hs1 : save_to_dlq s i topic payload e1 rc1 id1 t1 = s ++ [new1] := by
      unfold save_to_dlq
      rw [hfind1]
    have hfind2 : (s ++ [new1]).find? (fun r => r.request_id == i) = some new1 := by
      rw [List.find?_append, hfind1]
      simp [hnew1]
    set upd : DlqRecord → DlqRecord := fun r =>
      { r with last_error := e2, retry_count := rc2, last_failed_at := t2,
               error_history := r.error_history ++ [⟨e2, t2⟩] } with hupd
    have hs2 : save_to_dlq (s ++ [new1]) i topic payload e2 rc2 id2 t2 =
        s ++ [upd new1] := by
      unfold save_to_dlq
      rw [hfind2]
      rw [updateFirst_append _ _ s [new1]
        (fun x hx => by simpa using hnone x hx)]
      simp [updateFirst, hnew1, hupd]
    rw [hs1, hs2]
    constructor
    · simp only [countId, List.filter_append, List.length_append]
      rw [show (s.filter (fun r => r.request_id == i)).length = 0 from
        countId_eq_zero s i hnone]
      simp [hupd, hnew1]
    · refine ⟨upd new1, List.mem_append_right s (List.mem_singleton.mpr rfl), ?_⟩
      simp [hupd, hnew1]

/-- Witness for C7 from the empty collection. -/
theorem dlq_save_idempotent_and_unique_witness :
    countId (save_to_dlq (save_to_dlq [] "c1" "chat_requests" "m" "boom" 5 1 10)
        "c1" "chat_requests" "m" "late" 5 2 20) "c1" = 1 ∧
    ∃ r, r ∈ save_to_dlq (save_to_dlq [] "c1" "chat_requests" "m" "boom" 5 1 10)
          "c1" "chat_requests" "m" "late" 5 2 20 ∧
      r.request_id = "c1" ∧ r.error_history = [⟨"boom", 10⟩, ⟨"late", 20⟩] ∧
      r.retry_count = 5 ∧ r.last_error = "late" ∧ r.status = "pending" ∧
      r.first_failed_at = 10 ∧ r.created_at = 10 :=
  dlq_save_idempotent_and_unique.2 [] "c1" "chat_requests" "m" "boom" "late"
    5 5 1 2 10 20 (by intro r hr; cases hr)

/-- `get_dlq_items(status, limit, skip)` (dlq_handler.py): filter by
status, sort by `last_failed_at` descending, then skip and limit. -/
def get_dlq_items (s : DlqState) (status : Option String) (limit skip : Nat) :
    List DlqRecord :=
  let q : List DlqRecord := match status with
    | some st => s.filter (fun r => r.status == st)
    | none => s
  ((q.mergeSort (fun a b => decide (b.last_failed_at ≤ a.last_failed_at))).drop
      skip).take limit

/-- `mark_dlq_retried(dlq_id)` (dlq_handler.py). -/
def mark_dlq_retried (s : DlqState) (dlq_id now : Nat) : DlqState :=
  updateFirst (fun r => r.id == dlq_id)
    (fun r => { r with status := "retried", retried_at := some now }) s

/-- `POST /api/dlq/retry-all` (main.py, `retry_all_pending`): select up to
100 pending items (most recent first), republish each stored payload to
its original topic and mark it retried.  The republish is modelled as
always succeeding; the (topic, request_id) publications are returned
alongside the new state and the `retried` and `total` counters. -/
def retry_all_pending (s : DlqState) (now : Nat) :
    List (String × String) × DlqState × Nat × Nat :=
  let items := get_dlq_items s (some "pending") 100 0
  (items.map (fun r => (r.original_topic, r.request_id)),
   items.foldl (fun (st : DlqState) (r : DlqRecord) => mark_dlq_retried st r.id now) s,
   items.length, items.length)

/-- A record that does not match the update predicate stays a member. -/
theorem mem_updateFirst_of_not_match (p : DlqRecord → Bool)
    (f : DlqRecord → DlqRecord) {r : DlqRecord} :
    ∀ {st : DlqState}, r ∈ st → p r = false → r ∈ updateFirst p f st := by
  intro st
  induction st with
  | nil => intro h; cases h
  | cons x xs ih =>
      intro hmem hp
      rcases List.mem_cons.mp hmem with rfl | hxs
      · rw [updateFirst, if_neg (by simp [hp])]
        exact List.mem_cons_self _ _
      · by_cases hx : p x
        · rw [updateFirst, if_pos hx]
          exact List.mem_cons_of_mem _ hxs
        · rw [updateFirst, if_neg hx]
          exact List.mem_cons_of_mem _ (ih hxs hp)

/-- `updateFirst` with an id-preserving update keeps the id multiset. -/
theorem map_id_updateFirst (p : DlqRecord → Bool) (f : DlqRecord → DlqRecord)
    (hf : ∀ x, (f x).id = x.id) :
    ∀ st : DlqState, (updateFirst p f st).map DlqRecord.id = st.map DlqRecord.id := by
  intro st
  induction st with
  | nil => rfl
  | cons x xs ih =>
      by_cases hx : p x
      · simp [updateFirst, if_pos hx, hf x]
      · simp [updateFirst, if_neg hx, ih]

/-- With unique ids, updating by a member record's id rewrites exactly
that record. -/
theorem updated_mem_updateFirst (f : DlqRecord → DlqRecord) {r : DlqRecord} :
    ∀ {st : DlqState}, (st.map DlqRecord.id).Nodup → r ∈ st →
      f r ∈ updateFirst (fun x => x.id == r.id) f st := by
  intro st
  induction st with
  | nil => intro _ h; cases h
  | cons x xs ih =>
      intro hnd hmem
      rw [List.map_cons] at hnd
      have hnd' := List.nodup_cons.mp hnd
      by_cases hx : x.id = r.id
      · have hrx : r = x := by
          rcases List.mem_cons.mp hmem with rfl | hxs
          · rfl
          · exact absurd (hx ▸ List.mem_map_of_mem DlqRecord.id hxs) hnd'.1
        rw [updateFirst, if_pos (by simp [hx])]
        exact hrx ▸ List.mem_cons_self _ _
      · have hxs : r ∈ xs := by
          rcases List.mem_cons.mp hmem with rfl | hxs
          · exact absurd rfl hx
          · exact hxs
        rw [updateFirst, if_neg (by simp [hx])]
        exact List.mem_cons_of_mem _ (ih hnd'.2 hxs)

/-- Folding retry marks over item ids foreign to `r` keeps `r` a member. -/
theorem mem_foldl_mark (now : Nat) :
    ∀ (items : List DlqRecord) (st : DlqState) (r : DlqRecord), r ∈ st →
      (∀ x ∈ items, ¬ x.id = r.id) →
      r ∈ items.foldl (fun st2 x => mark_dlq_retried st2 x.id now) st := by
  intro items
  induction items with
  | nil => intro st r h _; exact h
  | cons a rest ih =>
      intro st r hmem hids
      refine ih _ r ?_ (fun x hx => hids x (List.mem_cons_of_mem a hx))
      refine mem_updateFirst_of_not_match _ _ hmem ?_
      simp only [beq_eq_false_iff_ne, ne_eq]
      intro h
      exact hids a (List.mem_cons_self a rest) h.symm

/-- Folding retry marks preserves the id multiset. -/
theorem map_id_foldl_mark (now : Nat) :
    ∀ (items : List DlqRecord) (st : DlqState),
      (items.foldl (fun st2 x => mark_dlq_retried st2 x.id now) st).map DlqRecord.id =
        st.map DlqRecord.id := by
  intro items
  induction items with
  | nil => intro st; rfl
  | cons a rest ih =>
      intro st
      rw [List.foldl_cons, ih]
      exact map_id_updateFirst (fun r => r.id == a.id)
        (fun r => { r with status := "retried", retried_at := some now })
        (fun x => rfl) st

/-- Folding retry marks over a nodup batch of members marks every batch
element retried in the final state. -/
theorem marked_foldl_mark (now : Nat) :
    ∀ (items : List DlqRecord) (st : DlqState),
      (st.map DlqRecord.id).Nodup → (∀ x ∈ items, x ∈ st) →
      (items.map DlqRecord.id).Nodup →
      ∀ r ∈ items,
        { r with status := "retried", retried_at := some now } ∈
          items.foldl (fun st2 x => mark_dlq_retried st2 x.id now) st := by
  intro items
  induction items with
  | nil => intro st _ _ _ r h; cases h
  | cons a rest ih =>
      intro st hnd hsub hitems r hr
      rw [List.map_cons] at hitems
      have hitems' := List.nodup_cons.mp hitems
      rw [List.foldl_cons]
      rcases List.mem_cons.mp hr with rfl | hrest
      · refine mem_foldl_mark now rest _ _ ?_ ?_
        · exact updated_mem_updateFirst _ hnd (hsub r (List.mem_cons_self r rest))
        · intro x hx h
          exact hitems'.1 (h ▸ List.mem_map_of_mem DlqRecord.id hx)
      · refine ih _ ?_ ?_ hitems'.2 r hrest
        · rw [show List.map DlqRecord.id (mark_dlq_retried st a.id now) =
              List.map DlqRecord.id st from
            map_id_updateFirst (fun r => r.id == a.id)
              (fun r => { r with status := "retried", retried_at := some now })
              (fun x => rfl) st]
          exact hnd
        · intro x hx
          refine mem_updateFirst_of_not_match _ _ (hsub x (List.mem_cons_of_mem a hx)) ?_
          simp only [beq_eq_false_iff_ne, ne_eq]
          intro h
          exact hitems'.1 (h ▸ List.mem_map_of_mem DlqRecord.id hx)

/-- C10: one invocation of the retry-all-pending admin operation touches
at most the 100 most recent pending records: `retried ≤ total ≤ 100`;
every selected item is pending; a pending record that was not selected is
no more recent (by `last_failed_at`) than any selected one; records whose
id was not selected stay unchanged in the new state; and every selected
item is marked retried in the new state. -/
theorem retry_all_pending_bounded (s : DlqState) (now : Nat)
    (hnd : (s.map DlqRecord.id).Nodup) :
    ((retry_all_pending s now).2.2.1 ≤ (retry_all_pending s now).2.2.2 ∧
      (retry_all_pending s now).2.2.2 ≤ 100) ∧
    (∀ r ∈ get_dlq_items s (some "pending") 100 0, r.status = "pending") ∧
    (∀ r ∈ s, r.status = "pending" →
      r ∉ get_dlq_items s (some "pending") 100 0 →
      ∀ p ∈ get_dlq_items s (some "pending") 100 0,
        r.last_failed_at ≤ p.last_failed_at) ∧
    (∀ r ∈ s, r.id ∉ (get_dlq_items s (some "pending") 100 0).map DlqRecord.id →
      r ∈ (retry_all_pending s now).2.1) ∧
    (∀ r ∈ get_dlq_items s (some "pending") 100 0,
      { r with status := "retried", retried_at := some now } ∈
        (retry_all_pending s now).2.1) := by
  set le : DlqRecord → DlqRecord → Bool :=
    fun a b => decide (b.last_failed_at ≤ a.last_failed_at) with hle
  set q : List DlqRecord := s.filter (fun r => r.status == "pending") with hq
  set sorted : List DlqRecord := q.mergeSort le with hsorted
  have hitems : get_dlq_items s (some "pending") 100 0 = sorted.take 100 := rfl
  have hsubq : ∀ x ∈ get_dlq_items s (some "pending") 100 0, x ∈ q := by
    intro x hx
    rw [hitems] at hx
    exact List.mem_mergeSort.mp ((List.take_sublist 100 sorted).subset hx)
  have hmem_s : ∀ x ∈ get_dlq_items s (some "pending") 100 0, x ∈ s := by
    intro x hx
    exact (List.mem_filter.mp (hq ▸ hsubq x hx)).1
  have hnodq : (q.map DlqRecord.id).Nodup := by
    rw [hq]
    exact List.Nodup.sublist (List.Sublist.map _ (List.filter_sublist s)) hnd
  have hnods : (sorted.map DlqRecord.id).Nodup := by
    rw [hsorted]
    exact (((List.mergeSort_perm q le).map DlqRecord.id).symm).nodup hnodq
  have hnodi : ((get_dlq_items s (some "pending") 100 0).map DlqRecord.id).Nodup := by
    rw [hitems]
    exact List.Nodup.sublist (List.Sublist.map _ (List.take_sublist 100 sorted)) hnods
  have hpair : List.Pairwise (fun a b => le a b = true) sorted := by
    rw [hsorted]
    refine List.sorted_mergeSort ?_ ?_ q
    · intro a b c hab hbc
      simp only [hle, decide_eq_true_eq] at hab hbc ⊢
      omega
    · intro a b
      simp only [hle, Bool.or_eq_true, decide_eq_true_eq]
      omega
  have hcross : ∀ x ∈ sorted.take 100, ∀ y ∈ sorted.drop 100, le x y = true := by
    have hp := hpair
    rw [← List.take_append_drop 100 sorted] at hp
    exact (List.pairwise_append.mp hp).2.2
  refine ⟨⟨le_rfl, ?_⟩, ?_, ?_, ?_, ?_⟩
  · show (get_dlq_items s (some "pending") 100 0).length ≤ 100
    rw [hitems, List.length_take]
    exact min_le_left _ _
  · intro r hr
    have := (List.mem_filter.mp (hq ▸ hsubq r hr)).2
    simpa using this
  · intro r hrs hpend hnot p hp
    have hrq : r ∈ sorted := by
      rw [hsorted]
      exact List.mem_mergeSort.mpr (hq ▸ List.mem_filter.mpr ⟨hrs, by simp [hpend]⟩)
    rw [hitems] at hnot hp
    rw [← List.take_append_drop 100 sorted] at hrq
    rcases List.mem_append.mp hrq with htake | hdrop
    · exact absurd htake hnot
    · have := hcross p hp r hdrop
      simpa [hle] using this
  · intro r hrs hnid
    refine mem_foldl_mark now (get_dlq_items s (some "pending") 100 0) s r hrs ?_
    intro x hx h
    exact hnid (h ▸ List.mem_map_of_mem DlqRecord.id hx)
  · intro r hr
    exact marked_foldl_mark now (get_dlq_items s (some "pending") 100 0) s
      hnd hmem_s hnodi r hr

/-- A sample DLQ record used by the C10 witness. -/
def dlqSample : DlqRecord :=
  { id := 7, request_id := "c1", original_topic := "chat_requests",
    message_data := "m", last_error := "boom", retry_count := 5,
    error_history := [⟨"boom", 3⟩], first_failed_at := 3, last_failed_at := 3,
    status := "pending", created_at := 3 }

/-- Witness for C10 at a concrete one-record collection. -/
theorem retry_all_pending_bounded_witness :
    (retry_all_pending [dlqSample] 9).2.2.2 ≤ 100 :=
  (retry_all_pending_bounded [dlqSample] 9 (by simp)).1.2

/-! ## Latency statistics (`dataflow/app/services/aggregator.py`) -/

/-- The statistics document `calculate_statistics` upserts per bucket. -/
structure LatencyStats where
  p50 : ℚ
  p95 : ℚ
  p99 : ℚ
  avg : ℚ
  min : ℚ
  max : ℚ
  count : Nat
deriving DecidableEq, Repr

/-- The body of the statistics step, after sorting (aggregator.py). -/
def pstatsOfSorted (samples : List ℚ) : Option LatencyStats :=
  if samples.length = 0 then none
  else some
    { p50 := samples.getD (samples.length * 50 / 100) 0,
      p95 := if 1 < samples.length then samples.getD (samples.length * 95 / 100) 0
             else samples.getD (samples.length - 1) 0,
      p99 := if 2 < samples.length then samples.getD (samples.length * 99 / 100) 0
             else samples.getD (samples.length - 1) 0,
      avg := samples.sum / (samples.length : ℚ),
      min := samples.getD 0 0,
      max := samples.getD (samples.length - 1) 0,
      count := samples.length }

/-- The per-document statistics step of `calculate_statistics`
(aggregator.py): sort the samples, skip empty lists, and index at
`int(n * p)`.  Python evaluates `int(n * 0.95)` on machine floats; that
agrees with the exact `n * 95 / 100` floor used here for every feasible
sample count, so the float product is embedded exactly. -/
def calculate_statistics (samples0 : List ℚ) : Option LatencyStats :=
  pstatsOfSorted (samples0.mergeSort (fun a b => decide (a ≤ b)))

/-- C6: on a non-empty already-sorted sample list the statistics pass
returns exactly `pX = samples[⌊n·X/100⌋]` for X ∈ {50, 95, 99} (each such
index being valid, `⌊n·X/100⌋ < n`, which subsumes the claimed
`samples[n−1]` fallback), together with `avg = sum/n`, `min = samples[0]`,
`max = samples[n−1]` and `count = n`. -/
theorem calculate_statistics_formulas (samples : List ℚ) (hne : samples ≠ [])
    (hsort : List.Sorted (· ≤ ·) samples) :
    calculate_statistics samples = some
      { p50 := samples.getD (samples.length * 50 / 100) 0,
        p95 := samples.getD (samples.length * 95 / 100) 0,
        p99 := samples.getD (samples.length * 99 / 100) 0,
        avg := samples.sum / (samples.length : ℚ),
        min := samples.getD 0 0,
        max := samples.getD (samples.length - 1) 0,
        count := samples.length } ∧
    samples.length * 50 / 100 < samples.length ∧
    samples.length * 95 / 100 < samples.length ∧
    samples.length * 99 / 100 < samples.length := by
  have hn : samples.length ≠ 0 := fun h => hne (List.length_eq_zero.mp h)
  have hms : samples.mergeSort (fun a b => decide (a ≤ b)) = samples := by
    apply List.mergeSort_of_sorted
    exact hsort.imp (fun h => by simpa using h)
  have hidx : ∀ x : Nat, x < 100 → samples.length * x / 100 < samples.length := by
    intro x hx
    rw [Nat.div_lt_iff_lt_mul (by norm_num : 0 < 100)]
    exact mul_lt_mul_of_pos_left hx (Nat.pos_of_ne_zero hn)
  refine ⟨?_, hidx 50 (by norm_num), hidx 95 (by norm_num), hidx 99 (by norm_num)⟩
  rw [calculate_statistics, hms, pstatsOfSorted, if_neg hn]
  congr 1
  have hp95 : (if 1 < samples.length then
      samples.getD (samples.length * 95 / 100) 0
      else samples.getD (samples.length - 1) 0) =
      samples.getD (samples.length * 95 / 100) 0 := by
    by_cases h1 : 1 < samples.length
    · rw [if_pos h1]
    · have : samples.length = 1 := by omega
      rw [if_neg h1, this]
  have hp99 : (if 2 < samples.length then
      samples.getD (samples.length * 99 / 100) 0
      else samples.getD (samples.length - 1) 0) =
      samples.getD (samples.length * 99 / 100) 0 := by
    by_cases h2 : 2 < samples.length
    · rw [if_pos h2]
    · have h12 : samples.length = 1 ∨ samples.length = 2 := by omega
      rcases h12 with h | h <;> rw [if_neg h2, h]
  rw [hp95, hp99]

/-- Witness for C6 at the spec's literal sample list:
p50 = 60, p95 = 100, p99 = 100. -/
theorem calculate_statistics_formulas_witness :
    calculate_statistics [10, 20, 30, 40, 50, 60, 70, 80, 90, 100] = some
      { p50 := 60, p95 := 100, p99 := 100, avg := 55, min := 10, max := 100,
        count := 10 } := by
  rw [(calculate_statistics_formulas [10, 20, 30, 40, 50, 60, 70, 80, 90, 100]
    (by decide) (by norm_num [List.Sorted, List.pairwise_cons])).1]
  norm_num [List.getD]

/-! ## PII masking (`orchestrator/app/services/security.py`) -/

/-- The keys of `PII_PATTERNS` (security.py), in iteration order. -/
def PII_TYPES : List String :=
  ["email", "phone_us", "phone_vn", "ssn", "credit_card", "ip_address", "passport"]

/-- Index of the first occurrence of `pat` in `s` (Python `str.find`). -/
def subIdx? : List Char → List Char → Option Nat
  | _, [] => some 0
  | [], _ :: _ => none
  | c :: rest, p :: ps =>
      if (p :: ps).isPrefixOf (c :: rest) then some 0
      else (subIdx? rest (p :: ps)).map (· + 1)

/-- Python `s.replace(old, new, 1)`: replace the first occurrence only
(for `old = ""` Python prepends `new`, which the `some 0` case covers). -/
def replaceFirst (s old new : List Char) : List Char :=
  match subIdx? s old with
  | none => s
  | some i => s.take i ++ new ++ s.drop (i + old.length)

/-- The per-match replacement of `mask_pii` (security.py): keep the first
two and the last two characters when the match is longer than 4, else
mask every character. -/
def maskMatch (m : List Char) (mask_char : Char) : List Char :=
  if 4 < m.length then
    m.take 2 ++ List.replicate (m.length - 4) mask_char ++ m.drop (m.length - 2)
  else List.replicate m.length mask_char

/-- One iteration of the `for pii_type, pattern in …` loop of `mask_pii`
(security.py): find the matches on the current (partially masked) text,
record the count when non-zero, and replace the first occurrence of each
match by its mask. -/
def maskStep (find : String → List Char → List (List Char)) (mask_char : Char)
    (acc : List Char × List (String × Nat)) (ty : String) :
    List Char × List (String × Nat) :=
  if (find ty acc.1).isEmpty then acc
  else
    ((find ty acc.1).foldl (fun t m => replaceFirst t m (maskMatch m mask_char)) acc.1,
     acc.2 ++ [(ty, (find ty acc.1).length)])

/-- `mask_pii(text, mask_char)` (security.py), with the regex engine
abstracted as a matcher oracle: `find ty t` stands for
`COMPILED_PII_PATTERNS[ty].findall(t)`. -/
def mask_pii (find : String → List Char → List (List Char)) (text : List Char)
    (mask_char : Char) : List Char × List (String × Nat) :=
  if text.isEmpty then (text, [])
  else PII_TYPES.foldl (maskStep find mask_char) (text, [])

/-- Masking a match never changes its length. -/
theorem maskMatch_length (m : List Char) (mc : Char) :
    (maskMatch m mc).length = m.length := by
  unfold maskMatch
  by_cases h : 4 < m.length
  · rw [if_pos h]
    simp only [List.length_append, List.length_take, List.length_replicate,
      List.length_drop]
    omega
  · rw [if_neg h, List.length_replicate]

/-- A found index leaves room for the pattern. -/
theorem subIdx?_le (old : List Char) :
    ∀ (s : List Char) (i : Nat), subIdx? s old = some i → i + old.length ≤ s.length := by
  cases old with
  | nil =>
      intro s i h
      rw [subIdx?] at h
      cases h
      simp
  | cons p ps =>
      intro s
      induction s with
      | nil => intro i h; cases h
      | cons c rest ih =>
          intro i h
          rw [subIdx?] at h
          by_cases hp : (p :: ps).isPrefixOf (c :: rest)
          · rw [if_pos hp] at h
            cases h
            have := (List.isPrefixOf_iff_prefix.mp hp).length_le
            simpa using this
          · rw [if_neg hp] at h
            cases hj : subIdx? rest (p :: ps) with
            | none => rw [hj] at h; cases h
            | some j =>
                rw [hj] at h
                cases h
                have := ih j hj
                simp only [List.length_cons] at this ⊢
                omega

/-- Replacing one occurrence by an equal-length string preserves length. -/
theorem replaceFirst_length (s old new : List Char) (h : new.length = old.length) :
    (replaceFirst s old new).length = s.length := by
  unfold replaceFirst
  cases hi : subIdx? s old with
  | none => rfl
  | some i =>
      have hb := subIdx?_le old s i hi
      simp only [List.length_append, List.length_take, List.length_drop, h]
      omega

/-- The per-type masking fold preserves the text length. -/
theorem mask_fold_length (mc : Char) :
    ∀ (ms : List (List Char)) (t : List Char),
      (ms.foldl (fun t2 m => replaceFirst t2 m (maskMatch m mc)) t).length = t.length := by
  intro ms
  induction ms with
  | nil => intro t; rfl
  | cons m rest ih =>
      intro t
      rw [List.foldl_cons, ih]
      exact replaceFirst_length t m (maskMatch m mc) (maskMatch_length m mc)

/-- The main fold of `mask_pii`: the text length is invariant and every
stats entry records a non-zero match count reported by the detector on a
text of the invariant length. -/
theorem mask_pii_fold_invariant (find : String → List Char → List (List Char))
    (mc : Char) (L : Nat) :
    ∀ (tys : List String) (acc : List Char × List (String × Nat)),
      acc.1.length = L →
      (∀ e ∈ acc.2, e.1 ∈ PII_TYPES ∧ e.2 ≠ 0 ∧
        ∃ t : List Char, t.length = L ∧ e.2 = (find e.1 t).length) →
      (∀ ty ∈ tys, ty ∈ PII_TYPES) →
      (tys.foldl (maskStep find mc) acc).1.length = L ∧
      ∀ e ∈ (tys.foldl (maskStep find mc) acc).2,
        e.1 ∈ PII_TYPES ∧ e.2 ≠ 0 ∧
        ∃ t : List Char, t.length = L ∧ e.2 = (find e.1 t).length := by
  intro tys
  induction tys with
  | nil => intro acc h1 h2 _; exact ⟨h1, h2⟩
  | cons ty rest ih =>
      intro acc h1 h2 htys
      rw [List.foldl_cons]
      by_cases hms : (find ty acc.1).isEmpty
      · rw [show maskStep find mc acc ty = acc from by rw [maskStep, if_pos hms]]
        exact ih acc h1 h2 (fun y hy => htys y (List.mem_cons_of_mem ty hy))
      · rw [show maskStep find mc acc ty =
            ((find ty acc.1).foldl (fun t m => replaceFirst t m (maskMatch m mc)) acc.1,
             acc.2 ++ [(ty, (find ty acc.1).length)]) from by rw [maskStep, if_neg hms]]
        refine ih _ ?_ ?_ (fun y hy => htys y (List.mem_cons_of_mem ty hy))
        · rw [mask_fold_length mc]
          exact h1
        · intro e he
          rcases List.mem_append.mp he with hold | hnew
          · exact h2 e hold
          · rcases List.mem_singleton.mp hnew with rfl
            refine ⟨htys ty (List.mem_cons_self ty rest), ?_, acc.1, h1, rfl⟩
            simpa [List.isEmpty_iff_length_eq_zero] using hms

/-- C9: `mask_pii` is length-preserving — the masked text has exactly the
length of the input, because each match of length > 4 is replaced by its
first two characters, padding, and last two characters, and each shorter
match by padding of its own length — and every returned stats entry
records, for a PII type, the non-zero number of matches the detector
reported on the (same-length) text at that stage. -/
theorem mask_pii_length_preserving (find : String → List Char → List (List Char))
    (text : List Char) (mc : Char) :
    (mask_pii find text mc).1.length = text.length ∧
    (∀ e ∈ (mask_pii find text mc).2, e.1 ∈ PII_TYPES ∧ e.2 ≠ 0 ∧
      ∃ t : List Char, t.length = text.length ∧ e.2 = (find e.1 t).length) ∧
    (∀ m : List Char, (maskMatch m mc).length = m.length) := by
  unfold mask_pii
  by_cases ht : text.isEmpty
  · rw [if_pos ht]
    exact ⟨rfl, fun e he => absurd he (List.not_mem_nil e),
      fun m => maskMatch_length m mc⟩
  · rw [if_neg ht]
    have main := mask_pii_fold_invariant find mc text.length PII_TYPES (text, [])
      rfl (fun e he => absurd he (List.not_mem_nil e)) (fun ty h => h)
    exact ⟨main.1, main.2, fun m => maskMatch_length m mc⟩

/-- Witness for C9: a matcher reporting one email match on a sample text. -/
theorem mask_pii_length_preserving_witness :
    ∃ e ∈ (mask_pii
        (fun ty t => if ty = "email" ∧ t = "contact a@b.io now".data
          then ["a@b.io".data] else []) "contact a@b.io now".data '*').2,
      e.1 ∈ PII_TYPES ∧ e.2 ≠ 0 :=
  have h := (mask_pii_length_preserving
    (fun ty t => if ty = "email" ∧ t = "contact a@b.io now".data
      then ["a@b.io".data] else []) "contact a@b.io now".data '*').2.1
  have hmem : ("email", 1) ∈ (mask_pii
      (fun ty t => if ty = "email" ∧ t = "contact a@b.io now".data
        then ["a@b.io".data] else []) "contact a@b.io now".data '*').2 := by decide
  ⟨("email", 1), hmem, (h ("email", 1) hmem).1, (h ("email", 1) hmem).2.1⟩

/-! ## Token-budget message assembly (`orchestrator/app/services/chat_handler.py`) -/

/-- `CHARS_PER_TOKEN` (chat_handler.py). -/
def CHARS_PER_TOKEN : Nat := 4

/-- `MAX_CONTEXT_TOKENS` (chat_handler.py). -/
def MAX_CONTEXT_TOKENS : Nat := 6000

/-- `MAX_MESSAGE_TOKENS` (chat_handler.py). -/
def MAX_MESSAGE_TOKENS : Nat := 4000

/-- `MAX_HISTORY_MESSAGES` (chat_handler.py). -/
def MAX_HISTORY_MESSAGES : Nat := 10

/-- The file-content marker `"\n\nFile content:\n"` (chat_handler.py). -/
def FILE_MARKER : String := "\n\nFile content:\n"

/-- `estimate_tokens(text)` (chat_handler.py). -/
def estimate_tokens (text : String) : Nat :=
  if text.length = 0 then 0 else text.length / CHARS_PER_TOKEN + 1

/-- `truncate_to_tokens(text, max_tokens)` (chat_handler.py). -/
def truncate_to_tokens (text : String) (max_tokens : Nat) : String :=
  if text.length ≤ max_tokens * CHARS_PER_TOKEN then text
  else String.mk (text.data.take (max_tokens * CHARS_PER_TOKEN)) ++
    "\n\n... [Content truncated to fit token limit]"

/-- `truncate_message_content(content, max_tokens)` (chat_handler.py):
split at the first file-content marker, keep the user text whole, fit
the file part into the remaining budget or drop it. -/
def truncate_message_content (content : String) (max_tokens : Nat) : String :=
  match subIdx? content.data FILE_MARKER.data with
  | some i =>
      let user_text := String.mk (content.data.take i)
      let file_content := String.mk (content.data.drop (i + FILE_MARKER.data.length))
      let remaining_tokens : Int :=
        (max_tokens : Int) - estimate_tokens user_text - 50
      if 100 < remaining_tokens then
        user_text ++ FILE_MARKER ++ truncate_to_tokens file_content remaining_tokens.toNat
      else user_text ++ "\n\n[File content omitted due to token limit]"
  | none => truncate_to_tokens content max_tokens

/-- A `{role, content}` chat message. -/
structure ChatMsg where
  role : String
  content : String
deriving DecidableEq, Repr

/-- The per-message pre-truncation of the history walk
(chat_handler.py): a message above half the single-message cap is
truncated before fit-testing. -/
def preTrunc (msg : ChatMsg) : String :=
  if MAX_MESSAGE_TOKENS / 2 < estimate_tokens msg.content then
    truncate_to_tokens msg.content (MAX_MESSAGE_TOKENS / 2)
  else msg.content

/-- The newest-to-oldest history walk of `build_messages_with_token_limit`
(chat_handler.py): pre-truncate overlong messages, prepend
(`insert(0, …)`) those that fit, stop at the first that does not. -/
def selectHistory (available : Int) :
    List ChatMsg → Int → List ChatMsg → List ChatMsg × Int
  | [], used, acc => (acc, used)
  | msg :: rest, used, acc =>
      if (used + estimate_tokens (preTrunc msg) : Int) ≤ available then
        selectHistory available rest (used + estimate_tokens (preTrunc msg))
          (⟨msg.role, preTrunc msg⟩ :: acc)
      else (acc, used)

/-- `build_messages_with_token_limit(history_messages, system_prompt,
max_tokens)` (chat_handler.py). -/
def build_messages_with_token_limit (history_messages : List ChatMsg)
    (system_prompt : String) (max_tokens : Nat) : List ChatMsg :=
  match history_messages.getLast? with
  | none => []
  | some current_msg =>
      let history := history_messages.dropLast
      let current_content := truncate_message_content current_msg.content MAX_MESSAGE_TOKENS
      let available_for_history : Int :=
        (max_tokens : Int) - estimate_tokens system_prompt -
          estimate_tokens current_content - 100
      if available_for_history < 100 then [⟨current_msg.role, current_content⟩]
      else
        let recent := history.drop (history.length - MAX_HISTORY_MESSAGES)
        (selectHistory available_for_history recent.reverse 0 []).1 ++
          [⟨current_msg.role, current_content⟩]

/-- The history walk never grows the token tally beyond the budget. -/
theorem selectHistory_le (available : Int) :
    ∀ (msgs : List ChatMsg) (used : Int) (acc : List ChatMsg), used ≤ available →
      (selectHistory available msgs used acc).2 ≤ available := by
  intro msgs
  induction msgs with
  | nil => intro used acc h; exact h
  | cons msg rest ih =>
      intro used acc h
      rw [selectHistory]
      split
      · next hfit => exact ih _ _ hfit
      · exact h

/-- The history walk's token tally accounts exactly for the estimated
tokens of the messages it selected. -/
theorem selectHistory_sum (available : Int) :
    ∀ (msgs : List ChatMsg) (used : Int) (acc : List ChatMsg),
      ((selectHistory available msgs used acc).1.map
          (fun m => (estimate_tokens m.content : Int))).sum =
        (acc.map (fun m => (estimate_tokens m.content : Int))).sum +
          ((selectHistory available msgs used acc).2 - used) := by
  intro msgs
  induction msgs with
  | nil => intro used acc; simp [selectHistory]
  | cons msg rest ih =>
      intro used acc
      rw [selectHistory]
      split
      · next hfit =>
          rw [ih]
          simp only [List.map_cons, List.sum_cons]
          ring
      · simp

/-- A system prompt of 24004 characters (estimated 6002 tokens). -/
def bigSystemPrompt : String := String.mk (List.replicate 24004 'a')

/-- C8 (counterexample): when the system prompt alone is estimated above
the whole budget (6002 > 6000 tokens), the fallback branch still returns
the current message, and the combined estimate (6003) exceeds
`max_tokens` plus the current message's estimate (6001): the claimed
bound fails for this system prompt. -/
theorem token_budget_exceeded_by_large_system_prompt :
    estimate_tokens bigSystemPrompt = 6002 ∧
    build_messages_with_token_limit [⟨"user", "hi"⟩] bigSystemPrompt
        MAX_CONTEXT_TOKENS = [⟨"user", "hi"⟩] ∧
    estimate_tokens bigSystemPrompt +
      ((build_messages_with_token_limit [⟨"user", "hi"⟩] bigSystemPrompt
          MAX_CONTEXT_TOKENS).map (fun m => estimate_tokens m.content)).sum = 6003 ∧
    ¬ (6003 : Nat) ≤ MAX_CONTEXT_TOKENS +
        estimate_tokens (truncate_message_content "hi" MAX_MESSAGE_TOKENS) := by
  have hlen : bigSystemPrompt.length = 24004 := by
    rw [bigSystemPrompt, String.length_mk, List.length_replicate]
  have hsys : estimate_tokens bigSystemPrompt = 6002 := by
    rw [estimate_tokens, hlen]
    norm_num [CHARS_PER_TOKEN]
  have hcur : truncate_message_content "hi" MAX_MESSAGE_TOKENS = "hi" := by decide
  have hhi : ("hi" : String).length = 2 := rfl
  have hbuild : build_messages_with_token_limit [⟨"user", "hi"⟩] bigSystemPrompt
      MAX_CONTEXT_TOKENS = [⟨"user", "hi"⟩] := by
    rw [build_messages_with_token_limit]
    rw [show ([⟨"user", "hi"⟩] : List ChatMsg).getLast? = some ⟨"user", "hi"⟩ from rfl]
    dsimp only
    rw [hcur, hsys]
    rw [if_pos (by norm_num [MAX_CONTEXT_TOKENS, estimate_tokens, CHARS_PER_TOKEN, hhi])]
  refine ⟨hsys, hbuild, ?_, ?_⟩
  · rw [hbuild, hsys]
    norm_num [estimate_tokens, CHARS_PER_TOKEN, hhi]
  · rw [hcur]
    norm_num [MAX_CONTEXT_TOKENS, estimate_tokens, CHARS_PER_TOKEN, hhi]

/-- C8 (amended): provided the system prompt's estimate fits the budget
(`estimate_tokens system_prompt ≤ max_tokens`), the assembly always ends
with the (possibly truncated) current message, and the combined estimate
of system prompt plus all returned messages is at most `max_tokens` plus
the estimate of that one current message. -/
theorem build_messages_within_budget (msgs : List ChatMsg) (sys : String)
    (hne : msgs ≠ [])
    (hsys : estimate_tokens sys ≤ MAX_CONTEXT_TOKENS) :
    ∃ cur, msgs.getLast? = some cur ∧
      (build_messages_with_token_limit msgs sys MAX_CONTEXT_TOKENS).getLast? =
        some ⟨cur.role, truncate_message_content cur.content MAX_MESSAGE_TOKENS⟩ ∧
      (estimate_tokens sys : Int) +
        ((build_messages_with_token_limit msgs sys MAX_CONTEXT_TOKENS).map
          (fun m => (estimate_tokens m.content : Int))).sum ≤
        (MAX_CONTEXT_TOKENS : Int) +
          estimate_tokens (truncate_message_content cur.content MAX_MESSAGE_TOKENS) := by
  obtain ⟨cur, hcur⟩ : ∃ cur, msgs.getLast? = some cur := by
    cases hg : msgs.getLast? with
    | none => exact absurd (List.getLast?_eq_none_iff.mp hg) hne
    | some c => exact ⟨c, rfl⟩
  refine ⟨cur, hcur, ?_⟩
  rw [build_messages_with_token_limit, hcur]
  dsimp only
  split
  · next hlt =>
      constructor
      · rfl
      · simp only [List.map_cons, List.map_nil, List.sum_cons, List.sum_nil]
        omega
  · next hge =>
      constructor
      · exact List.getLast?_concat _
      · rw [List.map_append, List.sum_append]
        have h0 : (0 : Int) ≤ (MAX_CONTEXT_TOKENS : Int) - estimate_tokens sys -
            estimate_tokens (truncate_message_content cur.content MAX_MESSAGE_TOKENS) -
            100 := by omega
        have hsum := selectHistory_sum
          ((MAX_CONTEXT_TOKENS : Int) - estimate_tokens sys -
            estimate_tokens (truncate_message_content cur.content MAX_MESSAGE_TOKENS) - 100)
          ((msgs.dropLast.drop (msgs.dropLast.length - MAX_HISTORY_MESSAGES)).reverse) 0 []
        have hle := selectHistory_le
          ((MAX_CONTEXT_TOKENS : Int) - estimate_tokens sys -
            estimate_tokens (truncate_message_content cur.content MAX_MESSAGE_TOKENS) - 100)
          ((msgs.dropLast.drop (msgs.dropLast.length - MAX_HISTORY_MESSAGES)).reverse) 0 []
          h0
        simp only [List.map_nil, List.sum_nil, zero_add, sub_zero] at hsum
        rw [hsum]
        simp only [List.map_cons, List.map_nil, List.sum_cons, List.sum_nil]
        omega

/-- Witness for C8 (amended) at a concrete small input. -/
theorem build_messages_within_budget_witness :
    ∃ cur, ([⟨"user", "hello"⟩] : List ChatMsg).getLast? = some cur ∧
      (build_messages_with_token_limit [⟨"user", "hello"⟩] "sys"
          MAX_CONTEXT_TOKENS).getLast? =
        some ⟨cur.role, truncate_message_content cur.content MAX_MESSAGE_TOKENS⟩ ∧
      (estimate_tokens "sys" : Int) +
        ((build_messages_with_token_limit [⟨"user", "hello"⟩] "sys"
            MAX_CONTEXT_TOKENS).map
          (fun m => (estimate_tokens m.content : Int))).sum ≤
        (MAX_CONTEXT_TOKENS : Int) +
          estimate_tokens (truncate_message_content cur.content MAX_MESSAGE_TOKENS) :=
  build_messages_within_budget [⟨"user", "hello"⟩] "sys" (by simp) (by decide)

/-! ## File chunking (`orchestrator/app/services/file_processor.py`) -/

/-- The separator priority list of `chunk_text` (file_processor.py). -/
def SEPARATORS : List (List Char) :=
  [". ".data, ".\n".data, "\n\n".data, "\n".data, " ".data]

/-- Python `text[a:b]` on a character list. -/
def pySlice (l : List Char) (a b : Nat) : List Char := (l.take b).drop a

/-- Python `window.rfind(sep)`: the greatest index at which `sep` starts
(`none` for Python's `-1`). -/
def rfindList (w sep : List Char) : Option Nat :=
  ((List.range (w.length + 1)).filter (fun i => sep.isPrefixOf (w.drop i))).getLast?

/-- Python whitespace, for `str.strip()`. -/
def isPySpace (c : Char) : Bool :=
  [' ', '\t', '\n', '\r', Char.ofNat 11, Char.ofNat 12].contains c

/-- Python `str.strip()`. -/
def stripChars (l : List Char) : List Char :=
  ((l.dropWhile isPySpace).reverse.dropWhile isPySpace).reverse

/-- The separator-preferring window end of `chunk_text`
(file_processor.py): the first separator (in priority order) whose last
occurrence in `text[start:start+size]` lies strictly past
`chunk_size // 2` sets `end = start + last_sep + len(sep)`; else
`end = start + chunk_size`. -/
def chooseEnd (text : List Char) (start size : Nat) : Nat :=
  match SEPARATORS.findSome? (fun sep =>
    match rfindList (pySlice text start (start + size)) sep with
    | some i => if size / 2 < i then some (start + i + sep.length) else none
    | none => none) with
  | some e => e
  | none => start + size

/-- The window end of one loop iteration of `chunk_text`
(file_processor.py): separators are only consulted while
`end < len(text)`. -/
def chunkEnd (text : List Char) (size start : Nat) : Nat :=
  if start + size < text.length then chooseEnd text start size else start + size

/-- The (stripped) content of one loop iteration of `chunk_text`. -/
def chunkContent (text : List Char) (size start : Nat) : List Char :=
  stripChars (pySlice text start (chunkEnd text size start))

/-- A produced chunk `{content, metadata}` (file_processor.py). -/
structure Chunk where
  content : List Char
  metadata : String
deriving DecidableEq, Repr

/-- The `while start < len(text)` loop of `chunk_text`
(file_processor.py), instrumented to record each produced chunk's window
`(start, end)` beside it.  The fuel only bounds the iteration count; with
the default `chunk_size = 1000`, `overlap = 200` every step advances
`start`, so `text.length + 1` fuel is never exhausted early. -/
def chunkLoop (text : List Char) (size overlap : Nat) :
    Nat → Nat → Nat → List (Nat × Nat × Chunk)
  | 0, _, _ => []
  | fuel + 1, start, chunk_index =>
      if start < text.length then
        if (chunkContent text size start).isEmpty then
          (if text.length ≤ chunkEnd text size start - overlap then []
           else chunkLoop text size overlap fuel
             (chunkEnd text size start - overlap) chunk_index)
        else
          (start, chunkEnd text size start,
            ⟨chunkContent text size start,
             "Chunk " ++ toString (chunk_index + 1)⟩) ::
          (if text.length ≤ chunkEnd text size start - overlap then []
           else chunkLoop text size overlap fuel
             (chunkEnd text size start - overlap) (chunk_index + 1))
      else []

/-- `chunk_text(text, chunk_size, overlap)` (file_processor.py). -/
def chunk_text (text : List Char) (chunk_size overlap : Nat) : List Chunk :=
  if text.length ≤ chunk_size then [⟨text, "Chunk 1 of 1"⟩]
  else (chunkLoop text chunk_size overlap (text.length + 1) 0 0).map (fun t => t.2.2)

/-- The chunk windows `(start, end)` of `chunk_text`, from the same loop. -/
def chunkBounds (text : List Char) (chunk_size overlap : Nat) : List (Nat × Nat) :=
  if text.length ≤ chunk_size then [(0, text.length)]
  else (chunkLoop text chunk_size overlap (text.length + 1) 0 0).map
    (fun t => (t.1, t.2.1))

/-- A list's last option is one of its members. -/
theorem mem_of_getLast?_eq (l : List Nat) (a : Nat) (h : l.getLast? = some a) :
    a ∈ l := by
  cases l with
  | nil => cases h
  | cons x xs =>
      have hne : x :: xs ≠ [] := by simp
      rw [List.getLast?_eq_getLast_of_ne_nil hne] at h
      injection h with h2
      rw [← h2]
      exact List.getLast_mem hne

/-- A found `rfind` index leaves room for the separator in the window. -/
theorem rfindList_bound (w sep : List Char) (i : Nat)
    (h : rfindList w sep = some i) : i + sep.length ≤ w.length := by
  rw [rfindList] at h
  have hmem := mem_of_getLast?_eq _ _ h
  rw [List.mem_filter] at hmem
  have hi : i < w.length + 1 := List.mem_range.mp hmem.1
  have hpre := List.isPrefixOf_iff_prefix.mp hmem.2
  have := hpre.length_le
  rw [List.length_drop] at this
  omega

/-- The slice `text[start:start+size]` has at most `size` characters. -/
theorem pySlice_length_le (text : List Char) (start size : Nat) :
    (pySlice text start (start + size)).length ≤ size := by
  rw [pySlice, List.length_drop, List.length_take]
  omega

/-- The chosen window end never exceeds `start + size`. -/
theorem chooseEnd_le (text : List Char) (start size : Nat) :
    chooseEnd text start size ≤ start + size := by
  rw [chooseEnd]
  cases hf : SEPARATORS.findSome? (fun sep =>
      match rfindList (pySlice text start (start + size)) sep with
      | some i => if size / 2 < i then some (start + i + sep.length) else none
      | none => none) with
  | none => exact le_refl _
  | some e =>
      dsimp only
      obtain ⟨sep, _, hsep⟩ := List.exists_of_findSome?_eq_some hf
      cases hr : rfindList (pySlice text start (start + size)) sep with
      | none => rw [hr] at hsep; cases hsep
      | some i =>
          rw [hr] at hsep
          dsimp only at hsep
          by_cases hhalf : size / 2 < i
          · rw [if_pos hhalf] at hsep
            injection hsep with hsep
            have hb := rfindList_bound _ _ _ hr
            have hw := pySlice_length_le text start size
            omega
          · rw [if_neg hhalf] at hsep; cases hsep

/-- The chosen window end reaches at least the window midpoint. -/
theorem chooseEnd_ge (text : List Char) (start size : Nat) :
    start + size / 2 ≤ chooseEnd text start size := by
  rw [chooseEnd]
  cases hf : SEPARATORS.findSome? (fun sep =>
      match rfindList (pySlice text start (start + size)) sep with
      | some i => if size / 2 < i then some (start + i + sep.length) else none
      | none => none) with
  | none =>
      dsimp only
      have := Nat.div_le_self size 2
      omega
  | some e =>
      dsimp only
      obtain ⟨sep, _, hsep⟩ := List.exists_of_findSome?_eq_some hf
      cases hr : rfindList (pySlice text start (start + size)) sep with
      | none => rw [hr] at hsep; cases hsep
      | some i =>
          rw [hr] at hsep
          dsimp only at hsep
          by_cases hhalf : size / 2 < i
          · rw [if_pos hhalf] at hsep
            injection hsep with hsep
            omega
          · rw [if_neg hhalf] at hsep; cases hsep

/-- Every recorded chunk window satisfies `end ≤ start + size`. -/
theorem chunkLoop_bounds (text : List Char) (size overlap : Nat) :
    ∀ (fuel start idx : Nat) (b : Nat × Nat × Chunk),
      b ∈ chunkLoop text size overlap fuel start idx → b.2.1 ≤ b.1 + size := by
  intro fuel
  induction fuel with
  | zero => intro start idx b h; cases h
  | succ fuel ih =>
      intro start idx b hb
      rw [chunkLoop] at hb
      by_cases hs : start < text.length
      · rw [if_pos hs] at hb
        have hend : chunkEnd text size start ≤ start + size := by
          rw [chunkEnd]
          by_cases hlt : start + size < text.length
          · rw [if_pos hlt]; exact chooseEnd_le text start size
          · rw [if_neg hlt]
        by_cases hc : (chunkContent text size start).isEmpty
        · rw [if_pos hc] at hb
          by_cases hstop : text.length ≤ chunkEnd text size start - overlap
          · rw [if_pos hstop] at hb; cases hb
          · rw [if_neg hstop] at hb; exact ih _ _ b hb
        · rw [if_neg hc] at hb
          rcases List.mem_cons.mp hb with rfl | hb2
          · exact hend
          · by_cases hstop : text.length ≤ chunkEnd text size start - overlap
            · rw [if_pos hstop] at hb2; cases hb2
            · rw [if_neg hstop] at hb2; exact ih _ _ b hb2
      · rw [if_neg hs] at hb; cases hb

/-- The spec's literal chunking example: 2400 characters with a `". "`
at offset 1180 and no other separator anywhere. -/
def testText : List Char :=
  List.replicate 1180 'a' ++ '.' :: ' ' :: List.replicate 1218 'a'

/-- The example text has 2400 characters. -/
theorem testText_length : testText.length = 2400 := by
  rw [testText, List.length_append, List.length_replicate, List.length_cons,
    List.length_cons, List.length_replicate]

/-- The first window of the example text is 1000 letters `a`. -/
theorem testText_window1 : pySlice testText 0 (0 + 1000) = List.replicate 1000 'a' := by
  rw [pySlice, List.drop_zero, show (0 + 1000 : Nat) = 1000 by norm_num, testText]
  rw [List.take_append_of_le_length (by rw [List.length_replicate]; norm_num)]
  rw [List.take_replicate]
  norm_num

/-- `dropWhile` keeps a replicate of a non-space character whole. -/
theorem dropWhile_replicate_a (n : Nat) :
    List.dropWhile isPySpace (List.replicate n 'a') = List.replicate n 'a' := by
  cases n with
  | zero => rfl
  | succ m =>
      rw [List.replicate_succ, List.dropWhile_cons, if_neg (by decide)]

/-- `strip` keeps a replicate of a non-space character whole. -/
theorem stripChars_replicate_a (n : Nat) :
    stripChars (List.replicate n 'a') = List.replicate n 'a' := by
  rw [stripChars, dropWhile_replicate_a, List.reverse_replicate,
    dropWhile_replicate_a, List.reverse_replicate]

/-- `rfind` misses on a replicate when the separator starts differently. -/
theorem rfindList_replicate_none (n : Nat) (a : Char) (sep : List Char)
    (hne : sep ≠ []) (hhead : sep.head? ≠ some a) :
    rfindList (List.replicate n a) sep = none := by
  rw [rfindList, List.getLast?_eq_none_iff, List.filter_eq_nil_iff]
  intro i _
  rw [List.drop_replicate]
  intro hpre
  have hp := List.isPrefixOf_iff_prefix.mp hpre
  cases sep with
  | nil => exact hne rfl
  | cons s0 ss =>
      have hmem : s0 ∈ List.replicate (n - i) a := hp.subset (List.mem_cons_self s0 ss)
      have hs0 := List.eq_of_mem_replicate hmem
      exact hhead (by rw [List.head?_cons, hs0])

/-- No separator is found in the example's first window, so the first
window end is exactly `0 + 1000`. -/
theorem testText_chunkEnd0 : chunkEnd testText 1000 0 = 1000 := by
  rw [chunkEnd, if_pos (by rw [testText_length]; norm_num), chooseEnd]
  have hnone : (SEPARATORS.findSome? fun sep =>
      match rfindList (pySlice testText 0 (0 + 1000)) sep with
      | some i => if 1000 / 2 < i then some (0 + i + sep.length) else none
      | none => none) = none := by
    rw [List.findSome?_eq_none_iff]
    intro sep hsep
    have hcond : sep ≠ [] ∧ sep.head? ≠ some 'a' := by
      simp only [SEPARATORS, List.mem_cons, List.not_mem_nil, or_false] at hsep
      rcases hsep with rfl | rfl | rfl | rfl | rfl
      · exact ⟨by decide, by decide⟩
      · exact ⟨by decide, by decide⟩
      · exact ⟨by decide, by decide⟩
      · exact ⟨by decide, by decide⟩
      · exact ⟨by decide, by decide⟩
    rw [testText_window1, rfindList_replicate_none 1000 'a' sep hcond.1 hcond.2]
  rw [hnone]

/-- The first chunk content of the example is the 1000 letters, stripped
to themselves. -/
theorem testText_content0 : chunkContent testText 1000 0 = List.replicate 1000 'a' := by
  rw [chunkContent, testText_chunkEnd0]
  rw [show pySlice testText 0 1000 = List.replicate 1000 'a' from by
    rw [show (1000 : Nat) = 0 + 1000 by norm_num]
    exact testText_window1]
  exact stripChars_replicate_a 1000

/-- The first loop step of the example produces the window `(0, 1000)`
and continues at `start = 800`. -/
theorem testText_step1 (f : Nat) :
    chunkLoop testText 1000 200 (f + 1) 0 0 =
      (0, 1000, ⟨List.replicate 1000 'a', "Chunk " ++ toString 1⟩) ::
        chunkLoop testText 1000 200 f 800 1 := by
  rw [chunkLoop, if_pos (by rw [testText_length]; norm_num)]
  rw [testText_content0, testText_chunkEnd0]
  rw [if_neg (by decide)]
  rw [if_neg (by rw [testText_length]; norm_num)]

/-- A list whose head option is `some a` contains `a`. -/
theorem mem_of_head?_eq {l : List Char} {a : Char} (h : l.head? = some a) : a ∈ l := by
  cases l with
  | nil => cases h
  | cons x xs =>
      injection h with h2
      rw [← h2]
      exact List.mem_cons_self x xs

/-- Stripping cannot empty a list holding a non-space character. -/
theorem stripChars_ne_nil (l : List Char) (c : Char) (hc : c ∈ l)
    (hns : isPySpace c = false) : stripChars l ≠ [] := by
  intro h
  rw [stripChars, List.reverse_eq_nil_iff] at h
  have h2 := List.dropWhile_eq_nil_iff.mp h
  have hc2 : c ∈ List.dropWhile isPySpace l := by
    have hsplit : c ∈ List.takeWhile isPySpace l ++ List.dropWhile isPySpace l := by
      rw [List.takeWhile_append_dropWhile]
      exact hc
    rcases List.mem_append.mp hsplit with htake | hdrop
    · rw [List.mem_takeWhile_imp htake] at hns
      cases hns
    · exact hdrop
  have := h2 c (List.mem_reverse.mpr hc2)
  rw [hns] at this
  cases this

/-- The example's second window starts with a letter `a`. -/
theorem testText_slice800_head (e2 : Nat) (he2 : 800 < e2) :
    (pySlice testText 800 e2).head? = some 'a' := by
  rw [pySlice, List.head?_drop, List.getElem?_take, if_pos he2]
  rw [testText, List.getElem?_append]
  rw [if_pos (by rw [List.length_replicate]; norm_num)]
  rw [List.getElem?_replicate, if_pos (by norm_num)]

/-- The example's second chunk content is non-empty. -/
theorem testText_content800_ne :
    ¬ (chunkContent testText 1000 800).isEmpty := by
  have hge : 800 + 1000 / 2 ≤ chunkEnd testText 1000 800 := by
    rw [chunkEnd]
    by_cases hlt : 800 + 1000 < testText.length
    · rw [if_pos hlt]
      exact chooseEnd_ge testText 800 1000
    · rw [if_neg hlt]
      norm_num
  have hhead := testText_slice800_head (chunkEnd testText 1000 800) (by omega)
  have hmem := mem_of_head?_eq hhead
  have hne := stripChars_ne_nil _ 'a' hmem (by decide)
  rw [chunkContent]
  intro h
  exact hne (List.isEmpty_iff.mp h)

/-- The second loop step of the example starts its window at 800. -/
theorem testText_step2 (f : Nat) :
    (chunkLoop testText 1000 200 (f + 1) 800 1).head? =
      some (800, chunkEnd testText 1000 800,
        ⟨chunkContent testText 1000 800, "Chunk " ++ toString (1 + 1)⟩) := by
  rw [chunkLoop, if_pos (by rw [testText_length]; norm_num)]
  rw [if_neg testText_content800_ne]
  rfl

/-- The example's chunk windows: `(0, 1000)` first, then one starting at 800. -/
theorem testText_bounds :
    chunkBounds testText 1000 200 =
      (0, 1000) :: (chunkLoop testText 1000 200 2400 800 1).map
        (fun t => (t.1, t.2.1)) := by
  rw [chunkBounds, if_neg (by rw [testText_length]; norm_num), testText_length]
  rw [show (2400 + 1 : Nat) = 2400 + 1 from rfl, testText_step1 2400, List.map_cons]

/-- C5 (counterexample): on the literal 2400-character text with its
`". "` at offset 1180, the first chunk's window is `(0, 1000)` — it ends
at offset 1000, not at the claimed 1182 (no window can end past
`start + chunk_size`). -/
theorem first_chunk_ends_at_1000_not_1182 :
    (chunkBounds testText 1000 200).head? = some (0, 1000) ∧
    (chunkBounds testText 1000 200).head? ≠ some (0, 1182) := by
  rw [testText_bounds]
  exact ⟨rfl, by intro h; injection h with h2; cases h2⟩

set_option maxRecDepth 4000 in
/-- C5 (amended): `chunk_text` windows are bounded — every chunk's end
offset is at most its start plus `chunk_size`, so no first chunk of a
1000-sized chunking can end at 1182; the window end prefers the last
separator occurrence past the window midpoint in the source's priority
order; and on the literal 2400-character example the first chunk covers
`(0, 1000)` and the second chunk starts at `1000 − 200 = 800`. -/
theorem chunk_windows_bounded :
    (∀ (text : List Char) (size overlap : Nat) (b : Nat × Nat),
        b ∈ chunkBounds text size overlap → b.2 ≤ b.1 + size) ∧
    (chunkBounds testText 1000 200).head? = some (0, 1000) ∧
    (∃ e2, ((chunkBounds testText 1000 200).drop 1).head? = some (800, e2)) := by
  refine ⟨?_, ?_, ?_⟩
  · intro text size overlap b hb
    rw [chunkBounds] at hb
    by_cases hshort : text.length ≤ size
    · rw [if_pos hshort] at hb
      rcases List.mem_singleton.mp hb with rfl
      simpa using hshort
    · rw [if_neg hshort] at hb
      obtain ⟨t, ht, rfl⟩ := List.mem_map.mp hb
      exact chunkLoop_bounds text size overlap _ _ _ t ht
  · rw [testText_bounds]
    rfl
  · refine ⟨chunkEnd testText 1000 800, ?_⟩
    rw [testText_bounds]
    rw [List.drop_one, List.tail_cons]
    rw [show (2400 : Nat) = 2399 + 1 from rfl]
    rw [List.head?_map, testText_step2 2399]
    simp only [Option.map_some']

/-- Witness for C5 (amended) at a two-character text. -/
theorem chunk_windows_bounded_witness :
    ((0 : Nat), (2 : Nat)).2 ≤ ((0 : Nat), (2 : Nat)).1 + 1000 :=
  chunk_windows_bounded.1 "ab".data 1000 200 (0, 2) (by decide)
